import Mathlib

/-!
Verification development for the sovereign-tasks plugin.

The definitions below are a shallow embedding of the two route modules of the
repository (src/routes/web/index.js and src/routes/api/index.js).  The
relational store accessed through the ORM is modelled as an explicit record of
three tables (lists, tasks, invites); each HTTP handler becomes a pure Lean
function from a database state and request parameters to a result value and a
new database state.  The ORM transaction wrapper is modelled by rollback: a
handler that throws inside a transaction returns the original database.
Machine-generated values (row ids, random tokens, the current time) are passed
as explicit parameters; timestamps are integers of milliseconds.
-/

namespace SovereignTasks

/-- Characters matched by the JavaScript regular-expression class for
whitespace and removed by String.prototype.trim, restricted to ASCII. -/
def jsWhitespace (c : Char) : Bool :=
  c = ' ' || c = '\t' || c = '\n' || c = '\r' || c = '\x0b' || c = '\x0c'

/-- JavaScript String.prototype.toLowerCase, modelled characterwise
(the inputs of interest are ASCII). -/
def jsToLower (s : String) : String :=
  ⟨s.data.map Char.toLower⟩

/-- JavaScript String.prototype.trim: drop whitespace from both ends. -/
def jsTrim (s : String) : String :=
  ⟨((s.data.dropWhile jsWhitespace).reverse.dropWhile jsWhitespace).reverse⟩

/-- Replacement of every maximal whitespace run by a single hyphen, the
effect of replacing the regular expression "one or more whitespace" by "-"
globally.  The Boolean argument records whether the previous character was
whitespace. -/
def wsRunsAux : List Char → Bool → List Char
  | [], _ => []
  | c :: rest, prevWs =>
    if jsWhitespace c then
      if prevWs then wsRunsAux rest true else '-' :: wsRunsAux rest true
    else c :: wsRunsAux rest false

/-- Whether a character belongs to the class [a-z0-9-]. -/
def slugChar (c : Char) : Bool :=
  ('a' ≤ c && c ≤ 'z') || ('0' ≤ c && c ≤ '9') || c = '-'

/-- Replacement of every maximal hyphen run by a single hyphen, the effect of
replacing the regular expression "one or more hyphens" by "-" globally. -/
def collapseHyphensAux : List Char → Bool → List Char
  | [], _ => []
  | c :: rest, prevHyphen =>
    if c = '-' then
      if prevHyphen then collapseHyphensAux rest true
      else '-' :: collapseHyphensAux rest true
    else c :: collapseHyphensAux rest false

/-- Removal of one leading and one trailing hyphen, the effect of replacing
the anchored regular expression "leading hyphen or trailing hyphen" by the
empty string globally. -/
def trimEdgeHyphens (l : List Char) : List Char :=
  let l1 := match l with
    | '-' :: rest => rest
    | other => other
  match l1.reverse with
  | '-' :: rest => rest.reverse
  | _ => l1

/-- The slug derivation chain applied to a list name in the share-accept
handler: lowercase, whitespace runs to hyphens, every character outside
[a-z0-9-] to a hyphen, collapse hyphen runs, trim edge hyphens. -/
def slugify (name : String) : String :=
  let lowered := (jsToLower name).data
  let ws := wsRunsAux lowered false
  let mapped := ws.map (fun c => if slugChar c then c else '-')
  let collapsed := collapseHyphensAux mapped false
  ⟨trimEdgeHyphens collapsed⟩

/-- A slug derivation following the specification text of the clone
transaction instead of the source: characters outside [a-z0-9-] are
stripped rather than replaced by hyphens.  Kept solely to compare the
specified procedure with the implemented one. -/
def slugifySpecStrip (name : String) : String :=
  let lowered := (jsToLower name).data
  let ws := wsRunsAux lowered false
  let stripped := ws.filter slugChar
  let collapsed := collapseHyphensAux stripped false
  ⟨trimEdgeHyphens collapsed⟩

/-- One row of the taskList table. -/
structure TaskList where
  id : Nat
  userId : String
  name : String
  slug : String
  position : Nat
deriving DecidableEq

/-- One row of the task table.  The optional recurring configuration is an
opaque payload, modelled as a string. -/
structure Task where
  id : Nat
  userId : String
  listId : Nat
  title : String
  description : Option String
  dueDate : Option Int
  recurringConfig : Option String
  completed : Bool
  starred : Bool
  position : Nat
deriving DecidableEq

/-- One row of the taskListShareInvite table.  Status is one of the strings
"pending", "accepted", "revoked"; createdAt is an optional millisecond
timestamp, none modelling a null column. -/
structure ShareInvite where
  id : Nat
  listId : Nat
  inviterId : String
  email : String
  token : String
  role : String
  status : String
  createdAt : Option Int
deriving DecidableEq

/-- The database state seen through the persistence gateway. -/
structure DB where
  lists : List TaskList
  tasks : List Task
  invites : List ShareInvite
deriving DecidableEq

/-- The ordering used by the task queries of the handlers: by position
ascending, then id ascending. -/
def taskLe (a b : Task) : Prop :=
  a.position < b.position ∨ (a.position = b.position ∧ a.id ≤ b.id)

instance : DecidableRel taskLe := fun a b =>
  inferInstanceAs (Decidable (a.position < b.position ∨ (a.position = b.position ∧ a.id ≤ b.id)))

/-- Read of the tasks of one list ordered by (position, id), the findMany
query of the share-accept handler. -/
def tasksOfList (db : DB) (listId : Nat) : List Task :=
  List.insertionSort taskLe (db.tasks.filter (fun t => t.listId == listId))

/-- Count of the lists owned by one user. -/
def userListCount (db : DB) (uid : String) : Nat :=
  (db.lists.filter (fun l => l.userId == uid)).length

/-- Status update of one invite row selected by id. -/
def setInviteStatus (invites : List ShareInvite) (inviteId : Nat) (st : String) :
    List ShareInvite :=
  invites.map (fun inv => if inv.id = inviteId then { inv with status := st } else inv)

/-- The base slug computed by the share-accept handler: the slug of the
source list when that string is nonempty, otherwise the derivation from the
name (the empty name falling back to "list" before derivation and the empty
derivation result falling back to "list" after). -/
def baseSlugOf (sourceList : TaskList) : String :=
  if sourceList.slug ≠ "" then sourceList.slug
  else
    let nm := if sourceList.name = "" then "list" else sourceList.name
    let s := slugify nm
    if s = "" then "list" else s

/-- Whether some list of the given user already carries the given slug, the
findFirst conflict probe of the clone transaction. -/
def slugTaken (lists : List TaskList) (uid slug : String) : Bool :=
  lists.any (fun l => l.userId == uid && l.slug == slug)

/-- The candidate slug tried at iteration k of the uniqueness loop: the base
slug first, then the base slug with suffixes -2, -3, and so on. -/
def slugCandidate (base : String) : Nat → String
  | 0 => base
  | Nat.succ k => base ++ "-" ++ Nat.repr (k + 2)

/-- The probe-and-increment loop of the clone transaction, with explicit
fuel; the loop of the source runs until a free candidate is found, which the
fuel bound makes structural. -/
def uniqueSlugAux (lists : List TaskList) (uid base : String) : Nat → Nat → String
  | 0, k => slugCandidate base k
  | Nat.succ fuel, k =>
    if slugTaken lists uid (slugCandidate base k) then
      uniqueSlugAux lists uid base fuel (k + 1)
    else slugCandidate base k

/-- The slug given to the cloned list: the first candidate free among the
given user's lists. -/
def uniqueSlug (lists : List TaskList) (uid base : String) : String :=
  uniqueSlugAux lists uid base (lists.length + 1) 0

/-- The copy of one source task inserted by the bulk createMany of the clone
transaction: ownership moves to the recipient, the list id becomes the id of
the cloned list, and title, description, due date, recurring configuration,
completed, starred and position are taken verbatim from the source row.  The
id is the modelling of the autoincrement key for the row at the given index
of the batch. -/
def cloneTask (uid : String) (newListId taskIdBase idx : Nat) (t : Task) : Task :=
  { id := taskIdBase + idx
    userId := uid
    listId := newListId
    title := t.title
    description := t.description
    dueDate := t.dueDate
    recurringConfig := t.recurringConfig
    completed := t.completed
    starred := t.starred
    position := t.position }

/-- Fault-injection points for the three mutating statements of the clone
transaction. -/
inductive CloneFail where
  | atCreateList
  | atCreateTasks
  | atUpdateInvite
deriving DecidableEq

/-- The body of the clone transaction of the share-accept handler.  The
database is threaded through the statements; a throw at any statement yields
an error, and the caller restores the original database, which is the
atomic-rollback contract of the transaction wrapper. -/
def cloneTx (db : DB) (uid : String) (sourceList : TaskList)
    (tasksToClone : List Task) (inviteId freshListId freshTaskId : Nat)
    (base : String) (failAt : Option CloneFail) : Except Unit (TaskList × DB) := do
  let listPosition := userListCount db uid
  let uniq := uniqueSlug db.lists uid base
  if failAt = some CloneFail.atCreateList then throw ()
  let clonedList : TaskList :=
    { id := freshListId, userId := uid, name := sourceList.name
      slug := uniq, position := listPosition }
  let db1 : DB := { db with lists := db.lists ++ [clonedList] }
  if failAt = some CloneFail.atCreateTasks then throw ()
  let newTasks := tasksToClone.enum.map (fun p => cloneTask uid freshListId freshTaskId p.1 p.2)
  let db2 : DB := { db1 with tasks := db1.tasks ++ newTasks }
  if failAt = some CloneFail.atUpdateInvite then throw ()
  let db3 : DB := { db2 with invites := setInviteStatus db2.invites inviteId "accepted" }
  return (clonedList, db3)

/-- Normalisation applied to emails in the share-accept handler: lowercase,
then trim. -/
def normEmail (s : String) : String := jsTrim (jsToLower s)

/-- The retention window of invites in milliseconds: thirty days. -/
def inviteMaxAgeMs : Int := 30 * 24 * 60 * 60 * 1000

/-- The expiry test of the share-accept handler: an invite with a null
createdAt is never expired; otherwise the invite is expired when its age
strictly exceeds the retention window. -/
def inviteExpired (createdAt : Option Int) (now : Int) : Bool :=
  match createdAt with
  | none => false
  | some t => now - t > inviteMaxAgeMs

/-- The outcomes of the share-accept handler, one constructor per response
of the source. -/
inductive AcceptResult where
  | missingToken
  | inviteNotFound
  | revokedInvite
  | alreadyAccepted
  | signInRequired
  | listUnavailable
  | wrongAccount
  | expiredInvite
  | serverError
  | accepted (clonedList : TaskList)
deriving DecidableEq

/-- The share-accept handler of the web router.  Parameters: the database,
the optional token query parameter, the optional authenticated user id and
email of the request, the current time, the fresh ids handed out by the
store for the cloned list and the first cloned task, and the fault-injection
point of the clone transaction (none for a run in which every statement
succeeds). -/
def shareAccept (db : DB) (tokenParam userId userEmail : Option String)
    (now : Int) (freshListId freshTaskId : Nat) (failAt : Option CloneFail) :
    AcceptResult × DB :=
  let token := tokenParam.getD ""
  if token = "" then (AcceptResult.missingToken, db)
  else
    match db.invites.find? (fun inv => inv.token == token) with
    | none => (AcceptResult.inviteNotFound, db)
    | some invite =>
      if invite.status = "revoked" then (AcceptResult.revokedInvite, db)
      else if invite.status = "accepted" then (AcceptResult.alreadyAccepted, db)
      else
        match userId with
        | none => (AcceptResult.signInRequired, db)
        | some uid =>
          match db.lists.find? (fun l => l.id == invite.listId) with
          | none =>
            (AcceptResult.listUnavailable,
              { db with invites := setInviteStatus db.invites invite.id "revoked" })
          | some sourceList =>
            let currentEmail := normEmail (userEmail.getD "")
            let invitedEmail := normEmail invite.email
            if currentEmail = "" ∨ currentEmail ≠ invitedEmail then
              (AcceptResult.wrongAccount, db)
            else if inviteExpired invite.createdAt now then
              (AcceptResult.expiredInvite,
                { db with invites := setInviteStatus db.invites invite.id "revoked" })
            else
              match cloneTx db uid sourceList (tasksOfList db sourceList.id)
                  invite.id freshListId freshTaskId (baseSlugOf sourceList) failAt with
              | Except.error _ => (AcceptResult.serverError, db)
              | Except.ok (cl, db1) => (AcceptResult.accepted cl, db1)

/-- Whether a character list is free of the at sign and of whitespace, the
character class of the share email pattern. -/
def noAtOrWs (l : List Char) : Bool :=
  l.all (fun c => c ≠ '@' && !jsWhitespace c)

/-- Split of a character list at the first occurrence of a character. -/
def splitAtFirst (c : Char) : List Char → Option (List Char × List Char)
  | [] => none
  | x :: rest =>
    if x = c then some ([], rest)
    else
      match splitAtFirst c rest with
      | none => none
      | some (a, b) => some (x :: a, b)

/-- Whether a character list contains a dot that is neither its first nor
its last element. -/
def hasInteriorDot (l : List Char) : Bool :=
  ((l.drop 1).dropLast).contains '.'

/-- The lightweight email pattern of the share handler: one nonempty run
without at signs or whitespace, an at sign, then a domain without at signs
or whitespace containing a dot with at least one character on each side. -/
def simpleEmailOk (s : String) : Bool :=
  match splitAtFirst '@' s.data with
  | none => false
  | some (localPart, domain) =>
    localPart ≠ [] && noAtOrWs localPart && domain ≠ [] && noAtOrWs domain &&
      hasInteriorDot domain

/-- The outcomes of the share handler, one constructor per response of the
source. -/
inductive ShareResult where
  | shareUnauthorized
  | shareInvalidEmail
  | shareListNotFound
  | shareMailerMissing
  | shareMailFailed
  | shareAccepted (inviteId : Nat) (token : String)
deriving DecidableEq

/-- The share handler of the api router.  Parameters: the database, the
optional authenticated user id, the list id of the route, the optional email
field of the body, whether a mailer is configured, whether the mailer call
succeeds, the fresh id handed out for the invite row, the random token, and
the current time recorded as the createdAt of the new row.  The invite row
is created before the mailer is consulted, so a missing mailer or a failed
send leaves the row persisted. -/
def shareList (db : DB) (userId : Option String) (listId : Nat)
    (email : Option String) (mailerConfigured mailOk : Bool)
    (freshInviteId : Nat) (token : String) (now : Int) : ShareResult × DB :=
  match userId with
  | none => (ShareResult.shareUnauthorized, db)
  | some uid =>
    let trimmedEmail := jsTrim (email.getD "")
    if trimmedEmail = "" ∨ ¬ simpleEmailOk trimmedEmail then
      (ShareResult.shareInvalidEmail, db)
    else
      match db.lists.find? (fun l => l.id == listId && l.userId == uid) with
      | none => (ShareResult.shareListNotFound, db)
      | some _ =>
        let invite : ShareInvite :=
          { id := freshInviteId, listId := listId, inviterId := uid
            email := trimmedEmail, token := token, role := "editor"
            status := "pending", createdAt := some now }
        let db1 : DB := { db with invites := db.invites ++ [invite] }
        if ¬ mailerConfigured then (ShareResult.shareMailerMissing, db1)
        else if ¬ mailOk then (ShareResult.shareMailFailed, db1)
        else (ShareResult.shareAccepted freshInviteId token, db1)

/-- The sequence of row updates of a reorder transaction: the ids are walked
in order, and the rows whose key equals the current id receive the update
for the current index. -/
def applySeq (key : α → Nat) (upd : Nat → α → α) : List Nat → Nat → List α → List α
  | [], _, items => items
  | i :: rest, start, items =>
    applySeq key upd rest (start + 1)
      (items.map (fun x => if key x == i then upd start x else x))

/-- The outcomes of the reorder handlers. -/
inductive OrderResult where
  | orderUnauthorized
  | orderMissingIds
  | orderOk
deriving DecidableEq

/-- The list-reorder handler of the api router: every submitted id must name
a list of the caller, and the transaction rewrites the position of each
submitted list to its index in the submission. -/
def listsOrder (db : DB) (userId : Option String) (ids : List Nat) :
    OrderResult × DB :=
  match userId with
  | none => (OrderResult.orderUnauthorized, db)
  | some uid =>
    let existingIds :=
      (db.lists.filter (fun l => l.userId == uid && ids.contains l.id)).map (fun l => l.id)
    let missing := ids.filter (fun i => !existingIds.contains i)
    if missing ≠ [] then (OrderResult.orderMissingIds, db)
    else
      (OrderResult.orderOk,
        { db with lists := applySeq (fun l => l.id) (fun p l => { l with position := p }) ids 0 db.lists })

/-- The task-reorder handler of the api router: every submitted id must name
a task of the caller, and the transaction moves each submitted task into the
target list and rewrites its position to its index in the submission. -/
def tasksOrder (db : DB) (userId : Option String) (targetListId : Nat)
    (ids : List Nat) : OrderResult × DB :=
  match userId with
  | none => (OrderResult.orderUnauthorized, db)
  | some uid =>
    let existingIds :=
      (db.tasks.filter (fun t => t.userId == uid && ids.contains t.id)).map (fun t => t.id)
    let missing := ids.filter (fun i => !existingIds.contains i)
    if missing ≠ [] then (OrderResult.orderMissingIds, db)
    else
      (OrderResult.orderOk,
        { db with tasks := (applySeq (fun t => t.id)
            (fun p t => { t with listId := targetListId, position := p }) ids 0 db.tasks) })

/-- The slug defaulting of the create-list handler: a provided nonempty slug
string is used as given, otherwise the slug is the lowercased name with
whitespace runs replaced by hyphens. -/
def createListSlugDefault (name : String) : String :=
  ⟨wsRunsAux (jsToLower name).data false⟩

/-- The create-list handler, reduced to its database effect.  A missing user,
a missing or empty name leave the store untouched; otherwise a list is
appended with position equal to the caller's current list count. -/
def createList (db : DB) (userId : Option String) (name slugArg : Option String)
    (freshId : Nat) : DB :=
  match userId with
  | none => db
  | some uid =>
    match name with
    | none => db
    | some nm =>
      if nm = "" then db
      else
        let slug :=
          match slugArg with
          | some s => if s ≠ "" then s else createListSlugDefault nm
          | none => createListSlugDefault nm
        { db with lists := db.lists ++
            [{ id := freshId, userId := uid, name := nm, slug := slug
               position := userListCount db uid }] }

/-- The update-list handler, reduced to its database effect: after the
ownership probe, the name and slug fields are overwritten when the body
provides strings for them. -/
def updateList (db : DB) (userId : Option String) (listId : Nat)
    (name slugArg : Option String) : DB :=
  match userId with
  | none => db
  | some uid =>
    match db.lists.find? (fun l => l.id == listId && l.userId == uid) with
    | none => db
    | some existing =>
      { db with lists := db.lists.map (fun l =>
          if l.id = listId then
            { l with name := name.getD existing.name, slug := slugArg.getD existing.slug }
          else l) }

/-- The delete-list handler, reduced to its database effect: one transaction
removes the caller's tasks of the list and the list row. -/
def deleteList (db : DB) (userId : Option String) (listId : Nat) : DB :=
  match userId with
  | none => db
  | some uid =>
    match db.lists.find? (fun l => l.id == listId && l.userId == uid) with
    | none => db
    | some _ =>
      { db with
        tasks := db.tasks.filter (fun t => !(t.listId == listId && t.userId == uid))
        lists := db.lists.filter (fun l => !(l.id == listId)) }

/-- Count of the caller's tasks inside one list. -/
def taskCountInList (db : DB) (uid : String) (listId : Nat) : Nat :=
  (db.tasks.filter (fun t => t.userId == uid && t.listId == listId)).length

/-- The create-task handler, reduced to its database effect: after the
validation and ownership probes, a task is appended with completed false and
position equal to the caller's current task count in the list. -/
def createTask (db : DB) (userId : Option String) (listId : Nat)
    (title : Option String) (description : Option String) (dueDate : Option Int)
    (recurringConfig : Option String) (starred : Bool) (freshId : Nat) : DB :=
  match userId with
  | none => db
  | some uid =>
    match title with
    | none => db
    | some ttl =>
      if ttl = "" then db
      else
        match db.lists.find? (fun l => l.id == listId && l.userId == uid) with
        | none => db
        | some _ =>
          { db with tasks := db.tasks ++
              [{ id := freshId, userId := uid, listId := listId, title := ttl
                 description := description, dueDate := dueDate
                 recurringConfig := recurringConfig, completed := false
                 starred := starred, position := taskCountInList db uid listId }] }

/-- The field updates an update-task request may carry; an outer none means
the field is absent from the body, an inner none a null overwrite. -/
structure TaskUpdate where
  listId : Option Nat := none
  title : Option String := none
  description : Option (Option String) := none
  dueDate : Option (Option Int) := none
  recurringConfig : Option (Option String) := none
  completed : Option Bool := none
  starred : Option Bool := none
  position : Option Nat := none
deriving DecidableEq

/-- Application of the provided fields of an update-task request to a row. -/
def applyTaskUpdate (u : TaskUpdate) (t : Task) : Task :=
  { t with
    listId := u.listId.getD t.listId
    title := u.title.getD t.title
    description := u.description.getD t.description
    dueDate := u.dueDate.getD t.dueDate
    recurringConfig := u.recurringConfig.getD t.recurringConfig
    completed := u.completed.getD t.completed
    starred := u.starred.getD t.starred
    position := u.position.getD t.position }

/-- The update-task handler, reduced to its database effect. -/
def updateTask (db : DB) (userId : Option String) (taskId : Nat)
    (u : TaskUpdate) : DB :=
  match userId with
  | none => db
  | some uid =>
    match db.tasks.find? (fun t => t.id == taskId && t.userId == uid) with
    | none => db
    | some _ =>
      { db with tasks := db.tasks.map (fun t =>
          if t.id = taskId then applyTaskUpdate u t else t) }

/-- The delete-task handler, reduced to its database effect. -/
def deleteTask (db : DB) (userId : Option String) (taskId : Nat) : DB :=
  match userId with
  | none => db
  | some uid =>
    match db.tasks.find? (fun t => t.id == taskId && t.userId == uid) with
    | none => db
    | some _ => { db with tasks := db.tasks.filter (fun t => !(t.id == taskId)) }

/-- The purge handler for completed tasks of one list, reduced to its
database effect. -/
def deleteCompletedTasks (db : DB) (userId : Option String) (listId : Nat) : DB :=
  match userId with
  | none => db
  | some uid =>
    match db.lists.find? (fun l => l.id == listId && l.userId == uid) with
    | none => db
    | some _ =>
      { db with tasks := db.tasks.filter (fun t =>
          !(t.userId == uid && t.listId == listId && t.completed)) }

/-- One mutating operation of the plugin; the read-only routes (bootstrap
and the list queries) do not write the store and are omitted.  Every write
the two routers perform against the invites table happens inside the share
and share-accept operations. -/
inductive Op where
  | opCreateList (userId : Option String) (name slugArg : Option String) (freshId : Nat)
  | opUpdateList (userId : Option String) (listId : Nat) (name slugArg : Option String)
  | opDeleteList (userId : Option String) (listId : Nat)
  | opListsOrder (userId : Option String) (ids : List Nat)
  | opCreateTask (userId : Option String) (listId : Nat) (title : Option String)
      (description : Option String) (dueDate : Option Int)
      (recurringConfig : Option String) (starred : Bool) (freshId : Nat)
  | opUpdateTask (userId : Option String) (taskId : Nat) (u : TaskUpdate)
  | opDeleteTask (userId : Option String) (taskId : Nat)
  | opTasksOrder (userId : Option String) (targetListId : Nat) (ids : List Nat)
  | opDeleteCompleted (userId : Option String) (listId : Nat)
  | opShareList (userId : Option String) (listId : Nat) (email : Option String)
      (mailerConfigured mailOk : Bool) (freshInviteId : Nat) (token : String) (now : Int)
  | opShareAccept (tokenParam userId userEmail : Option String) (now : Int)
      (freshListId freshTaskId : Nat) (failAt : Option CloneFail)

/-- The database effect of one operation. -/
def runOp (db : DB) : Op → DB
  | Op.opCreateList userId name slugArg freshId => createList db userId name slugArg freshId
  | Op.opUpdateList userId listId name slugArg => updateList db userId listId name slugArg
  | Op.opDeleteList userId listId => deleteList db userId listId
  | Op.opListsOrder userId ids => (listsOrder db userId ids).2
  | Op.opCreateTask userId listId title description dueDate recurringConfig starred freshId =>
      createTask db userId listId title description dueDate recurringConfig starred freshId
  | Op.opUpdateTask userId taskId u => updateTask db userId taskId u
  | Op.opDeleteTask userId taskId => deleteTask db userId taskId
  | Op.opTasksOrder userId targetListId ids => (tasksOrder db userId targetListId ids).2
  | Op.opDeleteCompleted userId listId => deleteCompletedTasks db userId listId
  | Op.opShareList userId listId email mailerConfigured mailOk freshInviteId token now =>
      (shareList db userId listId email mailerConfigured mailOk freshInviteId token now).2
  | Op.opShareAccept tokenParam userId userEmail now freshListId freshTaskId failAt =>
      (shareAccept db tokenParam userId userEmail now freshListId freshTaskId failAt).2

/-- The list row the clone transaction creates when every statement
succeeds, named for the statements of the theorems below; definitionally the
row built inside cloneTx. -/
def clonedListOf (db : DB) (uid : String) (sourceList : TaskList)
    (freshListId : Nat) : TaskList :=
  { id := freshListId, userId := uid, name := sourceList.name
    slug := uniqueSlug db.lists uid (baseSlugOf sourceList)
    position := userListCount db uid }

/-- The task rows the clone transaction bulk-inserts when every statement
succeeds; definitionally the batch built inside cloneTx. -/
def clonedTasksOf (db : DB) (uid : String) (sourceList : TaskList)
    (freshListId freshTaskId : Nat) : List Task :=
  (tasksOfList db sourceList.id).enum.map
    (fun p => cloneTask uid freshListId freshTaskId p.1 p.2)

/-- Modelled from the spec: the base slug of the clone transaction as the
specification text describes it, with characters outside [a-z0-9-] stripped
instead of replaced by hyphens.  Kept to compare the described procedure
with the implemented one. -/
def specBaseSlugOf (sourceList : TaskList) : String :=
  if sourceList.slug ≠ "" then sourceList.slug
  else
    let s := slugifySpecStrip sourceList.name
    if s = "" then "list" else s

/-- Modelled from the spec: the full slug procedure the specification text
describes for the cloned list, base derivation by stripping followed by the
collision loop. -/
def slugPerSpec (db : DB) (uid : String) (sourceList : TaskList) : String :=
  uniqueSlug db.lists uid (specBaseSlugOf sourceList)

/-- The positions of one user's lists, the scope of the list-reorder
density property. -/
def userListPositions (db : DB) (uid : String) : List Nat :=
  (db.lists.filter (fun l => l.userId == uid)).map (fun l => l.position)

/-- The positions of the tasks of one list, the scope of the task-reorder
density property. -/
def listTaskPositions (db : DB) (listId : Nat) : List Nat :=
  (db.tasks.filter (fun t => t.listId == listId)).map (fun t => t.position)

/-- Wellformedness of one invite status: one of the three lifecycle
strings. -/
def inviteStatusWf (inv : ShareInvite) : Prop :=
  inv.status = "pending" ∨ inv.status = "accepted" ∨ inv.status = "revoked"

instance (inv : ShareInvite) : Decidable (inviteStatusWf inv) :=
  inferInstanceAs (Decidable (inv.status = "pending" ∨ inv.status = "accepted" ∨
    inv.status = "revoked"))

/-- A legal evolution of one invite status under one operation: unchanged,
or forward from pending to a terminal state. -/
def statusStep (old new : String) : Prop :=
  new = old ∨ (old = "pending" ∧ (new = "accepted" ∨ new = "revoked"))

/-- Freshness of the row id an operation asks the store to hand out: the id
of a created invite may not collide with an existing invite row, the
autoincrement contract of the store. -/
def opFresh (db : DB) : Op → Prop
  | Op.opShareList _ _ _ _ _ freshInviteId _ _ =>
      ∀ inv ∈ db.invites, inv.id ≠ freshInviteId
  | _ => True

/-- A source list owned by the inviter, slug groceries. -/
def exSourceList : TaskList :=
  { id := 1, userId := "owner", name := "Groceries", slug := "groceries", position := 0 }

/-- A list of the recipient already carrying the slug groceries. -/
def exRecipientList : TaskList :=
  { id := 2, userId := "u1", name := "Mine", slug := "groceries", position := 0 }

/-- First task of the source list. -/
def exTaskA : Task :=
  { id := 10, userId := "owner", listId := 1, title := "A", description := none
    dueDate := none, recurringConfig := none, completed := false, starred := false
    position := 0 }

/-- Second task of the source list. -/
def exTaskB : Task :=
  { id := 11, userId := "owner", listId := 1, title := "B", description := some "details"
    dueDate := some 5, recurringConfig := some "weekly", completed := true, starred := true
    position := 1 }

/-- A pending invite for the source list addressed to the recipient. -/
def exInvite : ShareInvite :=
  { id := 100, listId := 1, inviterId := "owner", email := "alice@example.com"
    token := "tok", role := "editor", status := "pending", createdAt := some 0 }

/-- The concrete store of the redemption scenarios. -/
def exDb : DB :=
  { lists := [exSourceList, exRecipientList], tasks := [exTaskA, exTaskB]
    invites := [exInvite] }

/-- The concrete store after the invite has already been accepted. -/
def exDbAccepted : DB :=
  { exDb with invites := [{ exInvite with status := "accepted" }] }

/-- A source list with an empty slug and a name containing a dot, the
input separating the implemented slug derivation from the specified one. -/
def exDotList : TaskList :=
  { id := 3, userId := "owner", name := "a.b", slug := "", position := 0 }

/-- The concrete store of the slug-derivation scenario. -/
def exDotDb : DB :=
  { lists := [exDotList]
    tasks := []
    invites := [{ id := 101, listId := 3, inviterId := "owner"
                  email := "alice@example.com", token := "tok2", role := "editor"
                  status := "pending", createdAt := some 0 }] }

/-- The concrete store of the reorder scenarios: one user owning two lists
and one list of two tasks. -/
def exOrderDb : DB :=
  { lists := [{ id := 1, userId := "u", name := "A", slug := "a", position := 0 },
              { id := 2, userId := "u", name := "B", slug := "b", position := 1 }]
    tasks := [{ id := 7, userId := "u", listId := 1, title := "t7", description := none
                dueDate := none, recurringConfig := none, completed := false
                starred := false, position := 0 },
              { id := 8, userId := "u", listId := 1, title := "t8", description := none
                dueDate := none, recurringConfig := none, completed := false
                starred := false, position := 1 }]
    invites := [] }

/-! ## Helper lemmas -/

/-- Under every guard of the redemption state machine, the handler reduces
to the clone transaction. -/
theorem shareAccept_clone_step (db : DB) (tok : String) (inv : ShareInvite)
    (uid : String) (userEmail : Option String) (sourceList : TaskList)
    (now : Int) (freshListId freshTaskId : Nat) (failAt : Option CloneFail)
    (htok : tok ≠ "")
    (hfind : db.invites.find? (fun i => i.token == tok) = some inv)
    (hstat : inv.status = "pending")
    (hlist : db.lists.find? (fun l => l.id == inv.listId) = some sourceList)
    (hne : normEmail (userEmail.getD "") ≠ "")
    (hmatch : normEmail (userEmail.getD "") = normEmail inv.email)
    (hexp : inviteExpired inv.createdAt now = false) :
    shareAccept db (some tok) (some uid) userEmail now freshListId freshTaskId failAt =
      match cloneTx db uid sourceList (tasksOfList db sourceList.id)
          inv.id freshListId freshTaskId (baseSlugOf sourceList) failAt with
      | Except.error _ => (AcceptResult.serverError, db)
      | Except.ok (cl, db1) => (AcceptResult.accepted cl, db1) := by
  unfold shareAccept
  simp only [Option.getD_some, if_neg htok, hfind]
  rw [if_neg (show ¬ inv.status = "revoked" by rw [hstat]; decide)]
  rw [if_neg (show ¬ inv.status = "accepted" by rw [hstat]; decide)]
  simp only [hlist]
  rw [if_neg (show ¬ (normEmail (userEmail.getD "") = "" ∨
        normEmail (userEmail.getD "") ≠ normEmail inv.email) by
      push_neg
      exact ⟨hne, hmatch⟩)]
  rw [if_neg (show ¬ inviteExpired inv.createdAt now = true by rw [hexp]; decide)]

/-- A clone transaction with a fault injected at any statement throws. -/
theorem cloneTx_fail (db : DB) (uid : String) (sourceList : TaskList)
    (tasksToClone : List Task) (inviteId freshListId freshTaskId : Nat)
    (base : String) (f : CloneFail) :
    cloneTx db uid sourceList tasksToClone inviteId freshListId freshTaskId base (some f) =
      Except.error () := by
  cases f <;> rfl

/-- A clone transaction with no fault commits the created list, the cloned
tasks and the accepted status together. -/
theorem cloneTx_none (db : DB) (uid : String) (sourceList : TaskList)
    (tasksToClone : List Task) (inviteId freshListId freshTaskId : Nat) (base : String) :
    cloneTx db uid sourceList tasksToClone inviteId freshListId freshTaskId base none =
      Except.ok
        ({ id := freshListId, userId := uid, name := sourceList.name
           slug := uniqueSlug db.lists uid base, position := userListCount db uid },
         { lists := db.lists ++
             [{ id := freshListId, userId := uid, name := sourceList.name
                slug := uniqueSlug db.lists uid base, position := userListCount db uid }]
           tasks := db.tasks ++
             tasksToClone.enum.map (fun p => cloneTask uid freshListId freshTaskId p.1 p.2)
           invites := setInviteStatus db.invites inviteId "accepted" }) := rfl

/-! ## C1: redemption is idempotent against replay -/

/-- Claim C1: presenting the token of an invite whose status is already
accepted returns the neutral already-accepted result and leaves the store
untouched: no list or task is created and the invite row is unchanged, so a
second redemption of the same token never clones twice. -/
theorem accept_idempotent_replay (db : DB) (tok : String) (inv : ShareInvite)
    (userId userEmail : Option String) (now : Int) (freshListId freshTaskId : Nat)
    (failAt : Option CloneFail)
    (htok : tok ≠ "")
    (hfind : db.invites.find? (fun i => i.token == tok) = some inv)
    (hacc : inv.status = "accepted") :
    shareAccept db (some tok) userId userEmail now freshListId freshTaskId failAt =
      (AcceptResult.alreadyAccepted, db) := by
  unfold shareAccept
  simp only [Option.getD_some, if_neg htok, hfind]
  rw [if_neg (show ¬ inv.status = "revoked" by rw [hacc]; decide), if_pos hacc]

/-- Witness for C1 on the concrete scenario. -/
theorem accept_idempotent_replay_witness :
    shareAccept exDbAccepted (some "tok") (some "u1") (some "alice@example.com")
        1000 50 60 none = (AcceptResult.alreadyAccepted, exDbAccepted) :=
  accept_idempotent_replay exDbAccepted "tok" { exInvite with status := "accepted" }
    (some "u1") (some "alice@example.com") 1000 50 60 none
    (by decide) (by decide) (by decide)

/-! ## C2: the clone transaction is all-or-nothing -/

/-- Claim C2: for a redemption that passes every check, a failure at any of
the three mutating statements of the clone transaction (list creation, task
bulk-insert, invite status update) leaves the store exactly as before, so
the invite is still pending and the token redeemable; with no failure the
new list, the cloned tasks and the accepted status are all committed
together. -/
theorem clone_transaction_atomic (db : DB) (tok : String) (inv : ShareInvite)
    (uid : String) (userEmail : Option String) (sourceList : TaskList)
    (now : Int) (freshListId freshTaskId : Nat)
    (htok : tok ≠ "")
    (hfind : db.invites.find? (fun i => i.token == tok) = some inv)
    (hstat : inv.status = "pending")
    (hlist : db.lists.find? (fun l => l.id == inv.listId) = some sourceList)
    (hne : normEmail (userEmail.getD "") ≠ "")
    (hmatch : normEmail (userEmail.getD "") = normEmail inv.email)
    (hexp : inviteExpired inv.createdAt now = false) :
    (∀ f : CloneFail,
      shareAccept db (some tok) (some uid) userEmail now freshListId freshTaskId (some f) =
        (AcceptResult.serverError, db)) ∧
    shareAccept db (some tok) (some uid) userEmail now freshListId freshTaskId none =
      (AcceptResult.accepted (clonedListOf db uid sourceList freshListId),
        { lists := db.lists ++ [clonedListOf db uid sourceList freshListId]
          tasks := db.tasks ++ clonedTasksOf db uid sourceList freshListId freshTaskId
          invites := setInviteStatus db.invites inv.id "accepted" }) := by
  constructor
  · intro f
    rw [shareAccept_clone_step db tok inv uid userEmail sourceList now freshListId
        freshTaskId (some f) htok hfind hstat hlist hne hmatch hexp, cloneTx_fail]
  · rw [shareAccept_clone_step db tok inv uid userEmail sourceList now freshListId
        freshTaskId none htok hfind hstat hlist hne hmatch hexp, cloneTx_none]
    rfl

/-- Witness for C2 on the concrete scenario. -/
theorem clone_transaction_atomic_witness :
    (∀ f : CloneFail,
      shareAccept exDb (some "tok") (some "u1") (some "alice@example.com") 1000 50 60 (some f) =
        (AcceptResult.serverError, exDb)) ∧
    shareAccept exDb (some "tok") (some "u1") (some "alice@example.com") 1000 50 60 none =
      (AcceptResult.accepted (clonedListOf exDb "u1" exSourceList 50),
        { lists := exDb.lists ++ [clonedListOf exDb "u1" exSourceList 50]
          tasks := exDb.tasks ++ clonedTasksOf exDb "u1" exSourceList 50 60
          invites := setInviteStatus exDb.invites 100 "accepted" }) :=
  clone_transaction_atomic exDb "tok" exInvite "u1" (some "alice@example.com") exSourceList
    1000 50 60 (by decide) (by decide) (by decide) (by decide) (by decide) (by decide)
    (by decide)

/-! ## C4: the clone preserves ownership, placement and task fields -/

/-- Claim C4: an accepted redemption creates a list owned by the recipient
at position equal to the recipient's prior list count and appends one copy
of every task of the source list, with title, description, due date,
recurring configuration, completed, starred and position taken verbatim
from the source rows and ownership reassigned to the recipient and the new
list. -/
theorem clone_copies_tasks_verbatim (db : DB) (tok : String) (inv : ShareInvite)
    (uid : String) (userEmail : Option String) (sourceList : TaskList)
    (now : Int) (freshListId freshTaskId : Nat)
    (htok : tok ≠ "")
    (hfind : db.invites.find? (fun i => i.token == tok) = some inv)
    (hstat : inv.status = "pending")
    (hlist : db.lists.find? (fun l => l.id == inv.listId) = some sourceList)
    (hne : normEmail (userEmail.getD "") ≠ "")
    (hmatch : normEmail (userEmail.getD "") = normEmail inv.email)
    (hexp : inviteExpired inv.createdAt now = false) :
    shareAccept db (some tok) (some uid) userEmail now freshListId freshTaskId none =
      (AcceptResult.accepted (clonedListOf db uid sourceList freshListId),
        { lists := db.lists ++ [clonedListOf db uid sourceList freshListId]
          tasks := db.tasks ++ clonedTasksOf db uid sourceList freshListId freshTaskId
          invites := setInviteStatus db.invites inv.id "accepted" }) ∧
    (clonedListOf db uid sourceList freshListId).userId = uid ∧
    (clonedListOf db uid sourceList freshListId).position = userListCount db uid ∧
    (clonedTasksOf db uid sourceList freshListId freshTaskId).length =
      (tasksOfList db sourceList.id).length ∧
    (∀ i : Nat, ∀ hi : i < (tasksOfList db sourceList.id).length,
      ∀ hj : i < (clonedTasksOf db uid sourceList freshListId freshTaskId).length,
      ((clonedTasksOf db uid sourceList freshListId freshTaskId).get ⟨i, hj⟩).userId = uid ∧
      ((clonedTasksOf db uid sourceList freshListId freshTaskId).get ⟨i, hj⟩).listId = freshListId ∧
      ((clonedTasksOf db uid sourceList freshListId freshTaskId).get ⟨i, hj⟩).title =
        ((tasksOfList db sourceList.id).get ⟨i, hi⟩).title ∧
      ((clonedTasksOf db uid sourceList freshListId freshTaskId).get ⟨i, hj⟩).description =
        ((tasksOfList db sourceList.id).get ⟨i, hi⟩).description ∧
      ((clonedTasksOf db uid sourceList freshListId freshTaskId).get ⟨i, hj⟩).dueDate =
        ((tasksOfList db sourceList.id).get ⟨i, hi⟩).dueDate ∧
      ((clonedTasksOf db uid sourceList freshListId freshTaskId).get ⟨i, hj⟩).recurringConfig =
        ((tasksOfList db sourceList.id).get ⟨i, hi⟩).recurringConfig ∧
      ((clonedTasksOf db uid sourceList freshListId freshTaskId).get ⟨i, hj⟩).completed =
        ((tasksOfList db sourceList.id).get ⟨i, hi⟩).completed ∧
      ((clonedTasksOf db uid sourceList freshListId freshTaskId).get ⟨i, hj⟩).starred =
        ((tasksOfList db sourceList.id).get ⟨i, hi⟩).starred ∧
      ((clonedTasksOf db uid sourceList freshListId freshTaskId).get ⟨i, hj⟩).position =
        ((tasksOfList db sourceList.id).get ⟨i, hi⟩).position) ∧
    (tasksOfList db sourceList.id).Perm
      (db.tasks.filter (fun t => t.listId == sourceList.id)) := by
  refine ⟨?_, rfl, rfl, ?_, ?_, ?_⟩
  · rw [shareAccept_clone_step db tok inv uid userEmail sourceList now freshListId
        freshTaskId none htok hfind hstat hlist hne hmatch hexp, cloneTx_none]
    rfl
  · simp [clonedTasksOf]
  · intro i hi hj
    simp [clonedTasksOf, List.enum, cloneTask]
  · exact List.perm_insertionSort taskLe _

/-- Witness for C4: the scenario of the specification, tasks A and B at
positions 0 and 1 cloned to the recipient, combined with the evaluation of
the cloned rows. -/
theorem clone_copies_tasks_verbatim_witness :
    (shareAccept exDb (some "tok") (some "u1") (some "alice@example.com") 1000 50 60 none =
      (AcceptResult.accepted (clonedListOf exDb "u1" exSourceList 50),
        { lists := exDb.lists ++ [clonedListOf exDb "u1" exSourceList 50]
          tasks := exDb.tasks ++ clonedTasksOf exDb "u1" exSourceList 50 60
          invites := setInviteStatus exDb.invites 100 "accepted" })) ∧
    clonedListOf exDb "u1" exSourceList 50 =
      { id := 50, userId := "u1", name := "Groceries", slug := "groceries-2", position := 1 } ∧
    clonedTasksOf exDb "u1" exSourceList 50 60 =
      [{ exTaskA with id := 60, userId := "u1", listId := 50 },
       { exTaskB with id := 61, userId := "u1", listId := 50 }] :=
  ⟨(clone_copies_tasks_verbatim exDb "tok" exInvite "u1" (some "alice@example.com")
      exSourceList 1000 50 60 (by decide) (by decide) (by decide) (by decide) (by decide)
      (by decide) (by decide)).1,
    by decide, by decide⟩

/-! ## C6: expiry after thirty days revokes the invite -/

/-- Claim C6: a redemption that reaches the age check with a pending invite
whose age measured from createdAt strictly exceeds thirty days is rejected
as expired, the invite status becomes revoked, and no list or task is
created. -/
theorem accept_expired_revokes (db : DB) (tok : String) (inv : ShareInvite)
    (uid : String) (userEmail : Option String) (sourceList : TaskList)
    (now createdAt : Int) (freshListId freshTaskId : Nat) (failAt : Option CloneFail)
    (htok : tok ≠ "")
    (hfind : db.invites.find? (fun i => i.token == tok) = some inv)
    (hstat : inv.status = "pending")
    (hlist : db.lists.find? (fun l => l.id == inv.listId) = some sourceList)
    (hne : normEmail (userEmail.getD "") ≠ "")
    (hmatch : normEmail (userEmail.getD "") = normEmail inv.email)
    (hcre : inv.createdAt = some createdAt)
    (hage : now - createdAt > inviteMaxAgeMs) :
    shareAccept db (some tok) (some uid) userEmail now freshListId freshTaskId failAt =
      (AcceptResult.expiredInvite,
        { db with invites := setInviteStatus db.invites inv.id "revoked" }) ∧
    { inv with status := "revoked" } ∈ setInviteStatus db.invites inv.id "revoked" ∧
    ({ db with invites := setInviteStatus db.invites inv.id "revoked" } : DB).lists = db.lists ∧
    ({ db with invites := setInviteStatus db.invites inv.id "revoked" } : DB).tasks = db.tasks := by
  refine ⟨?_, ?_, rfl, rfl⟩
  · unfold shareAccept
    simp only [Option.getD_some, if_neg htok, hfind]
    rw [if_neg (show ¬ inv.status = "revoked" by rw [hstat]; decide)]
    rw [if_neg (show ¬ inv.status = "accepted" by rw [hstat]; decide)]
    simp only [hlist]
    rw [if_neg (show ¬ (normEmail (userEmail.getD "") = "" ∨
          normEmail (userEmail.getD "") ≠ normEmail inv.email) by
        push_neg
        exact ⟨hne, hmatch⟩)]
    rw [if_pos (show inviteExpired inv.createdAt now = true by
        rw [hcre]
        simpa [inviteExpired] using hage)]
  · exact List.mem_map.mpr ⟨inv, List.mem_of_find?_eq_some hfind, by simp [setInviteStatus]⟩

/-- Witness for C6: redemption thirty-one days after creation. -/
theorem accept_expired_revokes_witness :
    shareAccept exDb (some "tok") (some "u1") (some "alice@example.com")
        (31 * 24 * 60 * 60 * 1000) 50 60 none =
      (AcceptResult.expiredInvite,
        { exDb with invites := setInviteStatus exDb.invites 100 "revoked" }) :=
  (accept_expired_revokes exDb "tok" exInvite "u1" (some "alice@example.com") exSourceList
    (31 * 24 * 60 * 60 * 1000) 0 50 60 none (by decide) (by decide) (by decide) (by decide)
    (by decide) (by decide) (by decide) (by decide)).1

/-! ## C7: a mismatched email is forbidden and changes nothing -/

/-- Claim C7: a signed-in redemption whose normalised email (lowercased and
trimmed) differs from the invite's normalised target email is rejected with
the forbidden outcome and the store is unchanged, so the invite stays
pending for the correct account. -/
theorem accept_wrong_account (db : DB) (tok : String) (inv : ShareInvite)
    (uid : String) (userEmail : Option String) (sourceList : TaskList)
    (now : Int) (freshListId freshTaskId : Nat) (failAt : Option CloneFail)
    (htok : tok ≠ "")
    (hfind : db.invites.find? (fun i => i.token == tok) = some inv)
    (hstat : inv.status = "pending")
    (hlist : db.lists.find? (fun l => l.id == inv.listId) = some sourceList)
    (hdiff : normEmail (userEmail.getD "") ≠ normEmail inv.email) :
    shareAccept db (some tok) (some uid) userEmail now freshListId freshTaskId failAt =
      (AcceptResult.wrongAccount, db) := by
  unfold shareAccept
  simp only [Option.getD_some, if_neg htok, hfind]
  rw [if_neg (show ¬ inv.status = "revoked" by rw [hstat]; decide)]
  rw [if_neg (show ¬ inv.status = "accepted" by rw [hstat]; decide)]
  simp only [hlist]
  rw [if_pos (Or.inr hdiff)]

/-- Witness for C7: a caller signed in with another address. -/
theorem accept_wrong_account_witness :
    shareAccept exDb (some "tok") (some "u1") (some "bob@example.com") 1000 50 60 none =
      (AcceptResult.wrongAccount, exDb) :=
  accept_wrong_account exDb "tok" exInvite "u1" (some "bob@example.com") exSourceList
    1000 50 60 none (by decide) (by decide) (by decide) (by decide) (by decide)

/-! ## C10: a null createdAt exempts the invite from expiry -/

/-- Claim C10: a redemption that reaches the age check with an invite whose
createdAt is null skips the expiry rule entirely, whatever the current
time: the result is never the expired rejection, and the invite is never
revoked on age grounds — the invites table is either untouched or moved to
accepted by a successful clone. -/
theorem accept_null_createdAt_skips_expiry (db : DB) (tok : String) (inv : ShareInvite)
    (uid : String) (userEmail : Option String) (sourceList : TaskList)
    (now : Int) (freshListId freshTaskId : Nat) (failAt : Option CloneFail)
    (htok : tok ≠ "")
    (hfind : db.invites.find? (fun i => i.token == tok) = some inv)
    (hstat : inv.status = "pending")
    (hlist : db.lists.find? (fun l => l.id == inv.listId) = some sourceList)
    (hne : normEmail (userEmail.getD "") ≠ "")
    (hmatch : normEmail (userEmail.getD "") = normEmail inv.email)
    (hcre : inv.createdAt = none) :
    (shareAccept db (some tok) (some uid) userEmail now freshListId freshTaskId failAt).1 ≠
      AcceptResult.expiredInvite ∧
    ((shareAccept db (some tok) (some uid) userEmail now freshListId freshTaskId failAt).2.invites =
        db.invites ∨
      (shareAccept db (some tok) (some uid) userEmail now freshListId freshTaskId failAt).2.invites =
        setInviteStatus db.invites inv.id "accepted") := by
  have hexp : inviteExpired inv.createdAt now = false := by rw [hcre]; rfl
  rw [shareAccept_clone_step db tok inv uid userEmail sourceList now freshListId
      freshTaskId failAt htok hfind hstat hlist hne hmatch hexp]
  cases failAt with
  | none =>
    rw [cloneTx_none]
    exact ⟨by simp, Or.inr rfl⟩
  | some f =>
    rw [cloneTx_fail]
    exact ⟨by simp, Or.inl rfl⟩

/-- Witness for C10: a null createdAt redeemed at an arbitrarily late
time. -/
theorem accept_null_createdAt_skips_expiry_witness :
    (shareAccept { exDb with invites := [{ exInvite with createdAt := none }] }
        (some "tok") (some "u1") (some "alice@example.com")
        (1000000 * 24 * 60 * 60 * 1000) 50 60 none).1 ≠ AcceptResult.expiredInvite :=
  (accept_null_createdAt_skips_expiry
    { exDb with invites := [{ exInvite with createdAt := none }] } "tok"
    { exInvite with createdAt := none } "u1" (some "alice@example.com") exSourceList
    (1000000 * 24 * 60 * 60 * 1000) 50 60 none (by decide) (by decide) (by decide)
    (by decide) (by decide) (by decide) (by decide)).1

/-! ## C8: sharing without a mailer fails but persists the invite -/

/-- Claim C8: a share request that passes the email validation and the
list-ownership probe with no mailer configured answers with the
configuration-missing signal and still persists the created invite row with
status pending. -/
theorem share_without_mailer (db : DB) (uid : String) (listId : Nat)
    (email : Option String) (mailOk : Bool) (freshInviteId : Nat) (token : String)
    (now : Int) (tl : TaskList)
    (hemail1 : jsTrim (email.getD "") ≠ "")
    (hemail2 : simpleEmailOk (jsTrim (email.getD "")) = true)
    (hlist : db.lists.find? (fun l => l.id == listId && l.userId == uid) = some tl) :
    shareList db (some uid) listId email false mailOk freshInviteId token now =
      (ShareResult.shareMailerMissing,
        { db with invites := db.invites ++
            [{ id := freshInviteId, listId := listId, inviterId := uid
               email := jsTrim (email.getD ""), token := token, role := "editor"
               status := "pending", createdAt := some now }] }) := by
  unfold shareList
  simp only [hlist]
  rw [if_neg (show ¬ (jsTrim (email.getD "") = "" ∨
        ¬ simpleEmailOk (jsTrim (email.getD ""))) by
      push_neg
      exact ⟨hemail1, hemail2⟩)]
  rw [if_pos (show ¬ (false : Bool) = true by decide)]

/-- Witness for C8 on the concrete scenario. -/
theorem share_without_mailer_witness :
    shareList exDb (some "owner") 1 (some " carol@example.com ") false true 200 "tok3" 77 =
      (ShareResult.shareMailerMissing,
        { exDb with invites := exDb.invites ++
            [{ id := 200, listId := 1, inviterId := "owner", email := "carol@example.com"
               token := "tok3", role := "editor", status := "pending", createdAt := some 77 }] }) :=
  share_without_mailer exDb "owner" 1 (some " carol@example.com ") true 200 "tok3" 77
    exSourceList (by decide) (by decide) (by decide)

/-! ## C3: the slug of the cloned list -/

/-- The probe-and-increment loop returns the first free candidate: if the
candidate at index j is free, every earlier candidate is taken, and the fuel
reaches j, the loop stops at candidate j. -/
theorem uniqueSlugAux_first_free (lists : List TaskList) (uid base : String) :
    ∀ (fuel k j : Nat), k ≤ j → j < k + fuel →
      slugTaken lists uid (slugCandidate base j) = false →
      (∀ i, k ≤ i → i < j → slugTaken lists uid (slugCandidate base i) = true) →
      uniqueSlugAux lists uid base fuel k = slugCandidate base j := by
  intro fuel
  induction fuel with
  | zero =>
    intro k j h1 h2 h3 h4
    omega
  | succ fuel ih =>
    intro k j hkj hlt hfree hmin
    rw [uniqueSlugAux]
    by_cases htk : slugTaken lists uid (slugCandidate base k) = true
    · rw [if_pos htk]
      have hkne : k ≠ j := by
        intro he
        rw [he, hfree] at htk
        exact Bool.noConfusion htk
      exact ih (k + 1) j (by omega) (by omega) hfree
        (fun i hi1 hi2 => hmin i (by omega) hi2)
    · rw [if_neg htk]
      have hjk : j = k := by
        by_contra hne
        have hkltj : k < j := by omega
        exact htk (hmin k le_rfl hkltj)
      rw [hjk]

/-- Counterexample to claim C3 as stated: for a source list with empty slug
and name a.b, the accepted redemption gives the clone the slug a-b, whereas
the procedure of the claim — stripping characters outside [a-z0-9-] —
yields ab; the code replaces such characters by hyphens instead of
stripping them. -/
theorem clone_slug_spec_counterexample :
    (shareAccept exDotDb (some "tok2") (some "u1") (some "alice@example.com")
        1000 50 60 none).1 =
      AcceptResult.accepted
        { id := 50, userId := "u1", name := "a.b", slug := "a-b", position := 0 } ∧
    slugPerSpec exDotDb "u1" exDotList = "ab" ∧
    ("a-b" : String) ≠ "ab" := by
  decide

/-- Claim C3 (amended): on an accepted redemption the clone's slug starts
from the source list's slug, or when that is empty from the name lowered,
whitespace runs mapped to hyphens, characters outside [a-z0-9-] mapped to
hyphens (not stripped), hyphen runs collapsed, edge hyphens trimmed, with
literal list as fallback; and the slug used is the first candidate of the
sequence base, base-2, base-3, … free among the recipient's lists. -/
theorem clone_slug_first_free (db : DB) (tok : String) (inv : ShareInvite)
    (uid : String) (userEmail : Option String) (sourceList : TaskList)
    (now : Int) (freshListId freshTaskId : Nat) (j : Nat)
    (htok : tok ≠ "")
    (hfind : db.invites.find? (fun i => i.token == tok) = some inv)
    (hstat : inv.status = "pending")
    (hlist : db.lists.find? (fun l => l.id == inv.listId) = some sourceList)
    (hne : normEmail (userEmail.getD "") ≠ "")
    (hmatch : normEmail (userEmail.getD "") = normEmail inv.email)
    (hexp : inviteExpired inv.createdAt now = false)
    (hjle : j ≤ db.lists.length)
    (hfree : slugTaken db.lists uid (slugCandidate (baseSlugOf sourceList) j) = false)
    (hmin : ∀ i, i < j → slugTaken db.lists uid (slugCandidate (baseSlugOf sourceList) i) = true) :
    (shareAccept db (some tok) (some uid) userEmail now freshListId freshTaskId none).1 =
      AcceptResult.accepted (clonedListOf db uid sourceList freshListId) ∧
    (clonedListOf db uid sourceList freshListId).slug =
      slugCandidate (baseSlugOf sourceList) j := by
  constructor
  · rw [shareAccept_clone_step db tok inv uid userEmail sourceList now freshListId
        freshTaskId none htok hfind hstat hlist hne hmatch hexp, cloneTx_none]
    rfl
  · show uniqueSlug db.lists uid (baseSlugOf sourceList) = _
    unfold uniqueSlug
    exact uniqueSlugAux_first_free db.lists uid (baseSlugOf sourceList)
      (db.lists.length + 1) 0 j (Nat.zero_le j) (by omega) hfree
      (fun i hi1 hi2 => hmin i hi2)

/-- Witness for the amended C3: the recipient already owns slug groceries,
so the clone takes groceries-2, the candidate at index one. -/
theorem clone_slug_first_free_witness :
    (shareAccept exDb (some "tok") (some "u1") (some "alice@example.com") 1000 50 60 none).1 =
      AcceptResult.accepted (clonedListOf exDb "u1" exSourceList 50) ∧
    (clonedListOf exDb "u1" exSourceList 50).slug = slugCandidate (baseSlugOf exSourceList) 1 :=
  clone_slug_first_free exDb "tok" exInvite "u1" (some "alice@example.com") exSourceList
    1000 50 60 1 (by decide) (by decide) (by decide) (by decide) (by decide) (by decide)
    (by decide) (by decide) (by decide)
    (by
      intro i hi
      interval_cases i
      decide)

/-! ## C9: reorder positions -/

/-- Filtering a mapped list is mapping the list filtered through the
composed predicate. -/
theorem filter_of_map (f : α → β) (p : β → Bool) (l : List α) :
    (l.map f).filter p = (l.filter (fun x => p (f x))).map f := by
  induction l with
  | nil => rfl
  | cons a t ih => by_cases h : p (f a) <;> simp [h, ih]

/-- Mapping each element of a duplicate-free list to its index yields the
range of the length. -/
theorem map_indexOf_self (ids : List Nat) (h : ids.Nodup) :
    ids.map (fun i => ids.indexOf i) = List.range ids.length := by
  apply List.ext_getElem
  · simp
  · intro n h1 h2
    simp only [List.getElem_map, List.getElem_range]
    exact List.indexOf_getElem h n (by simpa using h1)

/-- The sequential update transaction of a reorder, characterised as one
map: when the submitted ids are duplicate-free, each row whose key occurs in
the submission receives the update at the index of its key, and every other
row is untouched. -/
theorem applySeq_eq_map {α : Type} (key : α → Nat) (upd : Nat → α → α)
    (hkey : ∀ p x, key (upd p x) = key x) :
    ∀ (ids : List Nat) (start : Nat) (items : List α), ids.Nodup →
      applySeq key upd ids start items =
        items.map (fun x =>
          if key x ∈ ids then upd (start + ids.indexOf (key x)) x else x) := by
  intro ids
  induction ids with
  | nil =>
    intro start items _
    simp [applySeq]
  | cons a rest ih =>
    intro start items hnd
    obtain ⟨ha, hrest⟩ := List.nodup_cons.mp hnd
    rw [applySeq, ih (start + 1) _ hrest, List.map_map]
    apply List.map_congr_left
    intro x _
    by_cases hx : key x = a
    · have h1 : (key x == a) = true := by simp [hx]
      simp only [Function.comp]
      rw [if_pos h1]
      rw [if_neg (show key (upd start x) ∉ rest by rw [hkey, hx]; exact ha)]
      rw [if_pos (List.mem_cons.mpr (Or.inl hx))]
      rw [hx, List.indexOf_cons_self, Nat.add_zero]
    · have h1 : (key x == a) = false := by simp [hx]
      simp only [Function.comp]
      rw [if_neg (show ¬ (key x == a) = true by simp [h1])]
      by_cases hmem : key x ∈ rest
      · rw [if_pos hmem, if_pos (List.mem_cons.mpr (Or.inr hmem))]
        rw [List.indexOf_cons_ne _ (fun he => hx he.symm)]
        congr 1
        omega
      · rw [if_neg hmem, if_neg (by
          intro hc
          rcases List.mem_cons.mp hc with h2 | h2
          · exact hx h2
          · exact hmem h2)]

/-- The list-reorder handler on a full, duplicate-free submission: the
request succeeds, each submitted list's position becomes its index, and the
positions of the caller's lists afterwards are exactly the range. -/
theorem listsOrder_spec (db : DB) (uid : String) (ids : List Nat)
    (hdbnd : (db.lists.map (fun l => l.id)).Nodup)
    (hids : ids.Nodup)
    (hown : ∀ i ∈ ids, ∃ l ∈ db.lists, l.userId = uid ∧ l.id = i)
    (hcover : ∀ l ∈ db.lists, l.userId = uid → l.id ∈ ids) :
    (listsOrder db (some uid) ids).1 = OrderResult.orderOk ∧
    (∀ k : Nat, ∀ hk : k < ids.length, ∀ l ∈ ((listsOrder db (some uid) ids).2).lists,
      l.id = ids.get ⟨k, hk⟩ → l.position = k) ∧
    (userListPositions ((listsOrder db (some uid) ids).2) uid).Perm
      (List.range ids.length) := by
  have hmiss : ids.filter (fun i =>
      !((db.lists.filter (fun l => l.userId == uid && ids.contains l.id)).map
        (fun l => l.id)).contains i) = [] := by
    rw [List.filter_eq_nil_iff]
    intro i hi
    obtain ⟨l, hl, hu, hid⟩ := hown i hi
    simp
    exact ⟨l, hl, hu, by rw [hid]; exact hi, hid⟩
  have hrun : listsOrder db (some uid) ids =
      (OrderResult.orderOk,
        { db with lists := (applySeq (fun l => l.id) (fun p l => { l with position := p })
            ids 0 db.lists) }) := by
    unfold listsOrder
    simp only [hmiss]
    rw [if_neg (by simp)]
  have hafter : ((listsOrder db (some uid) ids).2).lists =
      db.lists.map (fun l =>
        if l.id ∈ ids then { l with position := ids.indexOf l.id } else l) := by
    rw [hrun]
    show applySeq (fun l => l.id) (fun p l => { l with position := p }) ids 0 db.lists = _
    rw [applySeq_eq_map (fun l => l.id) (fun p l => { l with position := p })
        (fun p x => rfl) ids 0 db.lists hids]
    apply List.map_congr_left
    intro x _
    by_cases h : x.id ∈ ids <;> simp [h]
  refine ⟨by rw [hrun], ?_, ?_⟩
  · intro k hk l hl hid
    rw [hafter] at hl
    obtain ⟨l0, hl0, heq⟩ := List.mem_map.mp hl
    by_cases hmem : l0.id ∈ ids
    · rw [if_pos hmem] at heq
      subst heq
      have h2 : l0.id = ids.get ⟨k, hk⟩ := hid
      show List.indexOf l0.id ids = k
      rw [h2, List.get_eq_getElem]
      exact List.indexOf_getElem hids k (by simpa using hk)
    · rw [if_neg hmem] at heq
      subst heq
      exact absurd (by rw [hid]; exact ids.get_mem k hk) hmem
  · have hscope : userListPositions ((listsOrder db (some uid) ids).2) uid =
        ((db.lists.filter (fun l => l.userId == uid)).map (fun l => l.id)).map
          (fun i => ids.indexOf i) := by
      unfold userListPositions
      rw [hafter, filter_of_map]
      rw [List.filter_congr (fun x hx => show _ = (x.userId == uid) by
        by_cases h : x.id ∈ ids <;> simp [h])]
      rw [List.map_map, List.map_map]
      apply List.map_congr_left
      intro l hl
      have hl1 := List.mem_filter.mp hl
      have hu : l.userId = uid := by simpa using hl1.2
      have hidm : l.id ∈ ids := hcover l hl1.1 hu
      simp [Function.comp, hidm]
    rw [hscope]
    have huids : ((db.lists.filter (fun l => l.userId == uid)).map (fun l => l.id)).Nodup :=
      hdbnd.sublist (List.Sublist.map _ (List.filter_sublist _))
    have hpm : ((db.lists.filter (fun l => l.userId == uid)).map (fun l => l.id)).Perm ids := by
      rw [List.perm_ext_iff_of_nodup huids hids]
      intro i
      constructor
      · intro hi
        obtain ⟨l, hl, hid⟩ := List.mem_map.mp hi
        have hl1 := List.mem_filter.mp hl
        exact hid ▸ hcover l hl1.1 (by simpa using hl1.2)
      · intro hi
        obtain ⟨l, hl, hu, hid⟩ := hown i hi
        exact List.mem_map.mpr ⟨l, List.mem_filter.mpr ⟨hl, by simp [hu]⟩, hid⟩
    refine (hpm.map (fun i => ids.indexOf i)).trans ?_
    rw [map_indexOf_self ids hids]

/-- The task-reorder handler on a duplicate-free submission covering the
target list: the request succeeds, each submitted task moves to the target
list at position equal to its index, and the positions of the target list's
tasks afterwards are exactly the range. -/
theorem tasksOrder_spec (db : DB) (uid : String) (target : Nat) (ids : List Nat)
    (hdbnd : (db.tasks.map (fun t => t.id)).Nodup)
    (hids : ids.Nodup)
    (hown : ∀ i ∈ ids, ∃ t ∈ db.tasks, t.userId = uid ∧ t.id = i)
    (hcover : ∀ t ∈ db.tasks, t.listId = target → t.id ∈ ids) :
    (tasksOrder db (some uid) target ids).1 = OrderResult.orderOk ∧
    (∀ k : Nat, ∀ hk : k < ids.length, ∀ t ∈ ((tasksOrder db (some uid) target ids).2).tasks,
      t.id = ids.get ⟨k, hk⟩ → t.position = k ∧ t.listId = target) ∧
    (listTaskPositions ((tasksOrder db (some uid) target ids).2) target).Perm
      (List.range ids.length) := by
  have hmiss : ids.filter (fun i =>
      !((db.tasks.filter (fun t => t.userId == uid && ids.contains t.id)).map
        (fun t => t.id)).contains i) = [] := by
    rw [List.filter_eq_nil_iff]
    intro i hi
    obtain ⟨t, ht, hu, hid⟩ := hown i hi
    simp
    exact ⟨t, ht, hu, by rw [hid]; exact hi, hid⟩
  have hrun : tasksOrder db (some uid) target ids =
      (OrderResult.orderOk,
        { db with tasks := (applySeq (fun t => t.id)
            (fun p t => { t with listId := target, position := p }) ids 0 db.tasks) }) := by
    unfold tasksOrder
    simp only [hmiss]
    rw [if_neg (by simp)]
  have hafter : ((tasksOrder db (some uid) target ids).2).tasks =
      db.tasks.map (fun t =>
        if t.id ∈ ids then { t with listId := target, position := ids.indexOf t.id }
        else t) := by
    rw [hrun]
    show applySeq (fun t => t.id) (fun p t => { t with listId := target, position := p })
        ids 0 db.tasks = _
    rw [applySeq_eq_map (fun t => t.id) (fun p t => { t with listId := target, position := p })
        (fun p x => rfl) ids 0 db.tasks hids]
    apply List.map_congr_left
    intro x _
    by_cases h : x.id ∈ ids <;> simp [h]
  refine ⟨by rw [hrun], ?_, ?_⟩
  · intro k hk t ht hid
    rw [hafter] at ht
    obtain ⟨t0, ht0, heq⟩ := List.mem_map.mp ht
    by_cases hmem : t0.id ∈ ids
    · rw [if_pos hmem] at heq
      subst heq
      have h2 : t0.id = ids.get ⟨k, hk⟩ := hid
      refine ⟨?_, rfl⟩
      show List.indexOf t0.id ids = k
      rw [h2, List.get_eq_getElem]
      exact List.indexOf_getElem hids k (by simpa using hk)
    · rw [if_neg hmem] at heq
      subst heq
      exact absurd (by rw [hid]; exact ids.get_mem k hk) hmem
  · have hscope : listTaskPositions ((tasksOrder db (some uid) target ids).2) target =
        ((db.tasks.filter (fun t => decide (t.id ∈ ids))).map (fun t => t.id)).map
          (fun i => ids.indexOf i) := by
      unfold listTaskPositions
      rw [hafter, filter_of_map]
      rw [List.filter_congr (fun x hx => show _ = decide (x.id ∈ ids) by
        by_cases h : x.id ∈ ids
        · simp [h]
        · simp only [h, decide_False]
          by_cases h2 : x.listId = target
          · exact absurd (hcover x hx h2) h
          · simp [h, h2])]
      rw [List.map_map, List.map_map]
      apply List.map_congr_left
      intro t ht
      have ht1 := List.mem_filter.mp ht
      have hidm : t.id ∈ ids := by simpa using ht1.2
      simp [Function.comp, hidm]
    rw [hscope]
    have htids : ((db.tasks.filter (fun t => decide (t.id ∈ ids))).map (fun t => t.id)).Nodup :=
      hdbnd.sublist (List.Sublist.map _ (List.filter_sublist _))
    have hpm : ((db.tasks.filter (fun t => decide (t.id ∈ ids))).map (fun t => t.id)).Perm ids := by
      rw [List.perm_ext_iff_of_nodup htids hids]
      intro i
      constructor
      · intro hi
        obtain ⟨t, ht, hid⟩ := List.mem_map.mp hi
        have ht1 := List.mem_filter.mp ht
        exact hid ▸ (by simpa using ht1.2)
      · intro hi
        obtain ⟨t, ht, hu, hid⟩ := hown i hi
        refine List.mem_map.mpr ⟨t, List.mem_filter.mpr ⟨ht, by simp [hid, hi]⟩, hid⟩
    refine (hpm.map (fun i => ids.indexOf i)).trans ?_
    rw [map_indexOf_self ids hids]

/-- Counterexample to claim C9 as stated: the request naming only the second
of the caller's two lists is valid in the claim's sense (every id belongs to
the caller) and succeeds, but afterwards both lists sit at position zero, so
the positions of the scope are not dense and unique. -/
theorem reorder_positions_counterexample :
    (∀ i ∈ ([2] : List Nat), ∃ l ∈ exOrderDb.lists, l.userId = "u" ∧ l.id = i) ∧
    (listsOrder exOrderDb (some "u") [2]).1 = OrderResult.orderOk ∧
    ¬ ((userListPositions (listsOrder exOrderDb (some "u") [2]).2 "u").Perm
        (List.range (userListPositions (listsOrder exOrderDb (some "u") [2]).2 "u").length)) := by
  decide

/-- Claim C9 (amended): for every reorder request whose ids are duplicate
free, belong to the caller, and cover the whole affected scope — every list
of the caller, or every task currently in the target list — the request
succeeds, each submitted id's position equals its index in the submission
(tasks moving to the target list), and the positions of the scope afterwards
are dense and unique, a permutation of the range. -/
theorem reorder_positions_amended :
    (∀ (db : DB) (uid : String) (ids : List Nat),
      (db.lists.map (fun l => l.id)).Nodup → ids.Nodup →
      (∀ i ∈ ids, ∃ l ∈ db.lists, l.userId = uid ∧ l.id = i) →
      (∀ l ∈ db.lists, l.userId = uid → l.id ∈ ids) →
      (listsOrder db (some uid) ids).1 = OrderResult.orderOk ∧
      (∀ k : Nat, ∀ hk : k < ids.length, ∀ l ∈ ((listsOrder db (some uid) ids).2).lists,
        l.id = ids.get ⟨k, hk⟩ → l.position = k) ∧
      (userListPositions ((listsOrder db (some uid) ids).2) uid).Perm
        (List.range ids.length)) ∧
    (∀ (db : DB) (uid : String) (target : Nat) (ids : List Nat),
      (db.tasks.map (fun t => t.id)).Nodup → ids.Nodup →
      (∀ i ∈ ids, ∃ t ∈ db.tasks, t.userId = uid ∧ t.id = i) →
      (∀ t ∈ db.tasks, t.listId = target → t.id ∈ ids) →
      (tasksOrder db (some uid) target ids).1 = OrderResult.orderOk ∧
      (∀ k : Nat, ∀ hk : k < ids.length, ∀ t ∈ ((tasksOrder db (some uid) target ids).2).tasks,
        t.id = ids.get ⟨k, hk⟩ → t.position = k ∧ t.listId = target) ∧
      (listTaskPositions ((tasksOrder db (some uid) target ids).2) target).Perm
        (List.range ids.length)) :=
  ⟨fun db uid ids h1 h2 h3 h4 => listsOrder_spec db uid ids h1 h2 h3 h4,
   fun db uid target ids h1 h2 h3 h4 => tasksOrder_spec db uid target ids h1 h2 h3 h4⟩

/-- Witness for the amended C9: full reorders of two lists and of the two
tasks of a list. -/
theorem reorder_positions_amended_witness :
    (listsOrder exOrderDb (some "u") [2, 1]).1 = OrderResult.orderOk ∧
    (userListPositions (listsOrder exOrderDb (some "u") [2, 1]).2 "u").Perm (List.range 2) ∧
    (tasksOrder exOrderDb (some "u") 1 [8, 7]).1 = OrderResult.orderOk ∧
    (listTaskPositions (tasksOrder exOrderDb (some "u") 1 [8, 7]).2 1).Perm (List.range 2) :=
  ⟨(reorder_positions_amended.1 exOrderDb "u" [2, 1] (by decide) (by decide) (by decide)
      (by decide)).1,
   (reorder_positions_amended.1 exOrderDb "u" [2, 1] (by decide) (by decide) (by decide)
      (by decide)).2.2,
   (reorder_positions_amended.2 exOrderDb "u" 1 [8, 7] (by decide) (by decide) (by decide)
      (by decide)).1,
   (reorder_positions_amended.2 exOrderDb "u" 1 [8, 7] (by decide) (by decide) (by decide)
      (by decide)).2.2⟩

/-! ## C5: invite status only moves forward -/

/-- The create-list handler never writes the invites table. -/
theorem createList_invites (db : DB) (u n s : Option String) (f : Nat) :
    (createList db u n s f).invites = db.invites := by
  unfold createList
  (repeat' split) <;> rfl

/-- The update-list handler never writes the invites table. -/
theorem updateList_invites (db : DB) (u : Option String) (i : Nat) (n s : Option String) :
    (updateList db u i n s).invites = db.invites := by
  unfold updateList
  (repeat' split) <;> rfl

/-- The delete-list handler never writes the invites table. -/
theorem deleteList_invites (db : DB) (u : Option String) (i : Nat) :
    (deleteList db u i).invites = db.invites := by
  unfold deleteList
  (repeat' split) <;> rfl

/-- The list-reorder handler never writes the invites table. -/
theorem listsOrder_invites (db : DB) (u : Option String) (ids : List Nat) :
    (listsOrder db u ids).2.invites = db.invites := by
  unfold listsOrder
  split
  · rfl
  · dsimp only
    split <;> rfl

/-- The create-task handler never writes the invites table. -/
theorem createTask_invites (db : DB) (u : Option String) (li : Nat) (t d : Option String)
    (dd : Option Int) (rc : Option String) (st : Bool) (f : Nat) :
    (createTask db u li t d dd rc st f).invites = db.invites := by
  unfold createTask
  (repeat' split) <;> rfl

/-- The update-task handler never writes the invites table. -/
theorem updateTask_invites (db : DB) (u : Option String) (i : Nat) (tu : TaskUpdate) :
    (updateTask db u i tu).invites = db.invites := by
  unfold updateTask
  (repeat' split) <;> rfl

/-- The delete-task handler never writes the invites table. -/
theorem deleteTask_invites (db : DB) (u : Option String) (i : Nat) :
    (deleteTask db u i).invites = db.invites := by
  unfold deleteTask
  (repeat' split) <;> rfl

/-- The task-reorder handler never writes the invites table. -/
theorem tasksOrder_invites (db : DB) (u : Option String) (t : Nat) (ids : List Nat) :
    (tasksOrder db u t ids).2.invites = db.invites := by
  unfold tasksOrder
  split
  · rfl
  · dsimp only
    split <;> rfl

/-- The completed-task purge never writes the invites table. -/
theorem deleteCompletedTasks_invites (db : DB) (u : Option String) (i : Nat) :
    (deleteCompletedTasks db u i).invites = db.invites := by
  unfold deleteCompletedTasks
  (repeat' split) <;> rfl

/-- Every row of a status-updated invites table comes from a source row with
the same id, either untouched or, when its id is the targeted one, with just
the status overwritten. -/
theorem setInviteStatus_cases (invs : List ShareInvite) (iid : Nat) (st : String) :
    ∀ inv' ∈ setInviteStatus invs iid st, ∃ a ∈ invs,
      inv'.id = a.id ∧ (inv' = a ∨ (a.id = iid ∧ inv' = { a with status := st })) := by
  intro inv' h
  obtain ⟨a, hm, he⟩ := List.mem_map.mp h
  by_cases hid : a.id = iid
  · rw [if_pos hid] at he
    subst he
    exact ⟨a, hm, rfl, Or.inr ⟨hid, rfl⟩⟩
  · rw [if_neg hid] at he
    subst he
    exact ⟨a, hm, rfl, Or.inl rfl⟩

/-- Two rows of an invites table with duplicate-free ids and equal ids are
the same row. -/
theorem mem_eq_of_id_nodup {invs : List ShareInvite}
    (hnd : (invs.map (fun i => i.id)).Nodup) {a b : ShareInvite}
    (ha : a ∈ invs) (hb : b ∈ invs) (hid : a.id = b.id) : a = b :=
  List.inj_on_of_nodup_map hnd ha hb hid

/-- A committed clone transaction sets exactly the targeted invite to
accepted. -/
theorem cloneTx_ok_invites {db : DB} {uid : String} {sourceList : TaskList}
    {tasksToClone : List Task} {inviteId freshListId freshTaskId : Nat} {base : String}
    {failAt : Option CloneFail} {cl : TaskList} {db1 : DB}
    (h : cloneTx db uid sourceList tasksToClone inviteId freshListId freshTaskId base failAt =
      Except.ok (cl, db1)) :
    db1.invites = setInviteStatus db.invites inviteId "accepted" := by
  cases failAt with
  | some f =>
    rw [cloneTx_fail] at h
    cases h
  | none =>
    rw [cloneTx_none] at h
    injection h with h2
    injection h2 with hcl hdb
    rw [← hdb]

/-- The share handler leaves the invites table unchanged or appends one
pending row. -/
theorem shareList_invites_cases (db : DB) (userId : Option String) (listId : Nat)
    (email : Option String) (mc mk : Bool) (fid : Nat) (token : String) (now : Int) :
    (shareList db userId listId email mc mk fid token now).2.invites = db.invites ∨
    ∃ uid : String,
      (shareList db userId listId email mc mk fid token now).2.invites =
        db.invites ++
          [{ id := fid, listId := listId, inviterId := uid
             email := jsTrim (email.getD ""), token := token, role := "editor"
             status := "pending", createdAt := some now }] := by
  unfold shareList
  cases userId with
  | none => exact Or.inl rfl
  | some uid =>
    dsimp only
    by_cases h1 : jsTrim (email.getD "") = "" ∨ ¬ simpleEmailOk (jsTrim (email.getD ""))
    · rw [if_pos h1]
      exact Or.inl rfl
    · rw [if_neg h1]
      cases hfind : db.lists.find? (fun l => l.id == listId && l.userId == uid) with
      | none => exact Or.inl rfl
      | some tl =>
        dsimp only
        by_cases h2 : ¬ (mc = true)
        · rw [if_pos h2]
          exact Or.inr ⟨uid, rfl⟩
        · rw [if_neg h2]
          by_cases h3 : ¬ (mk = true)
          · rw [if_pos h3]
            exact Or.inr ⟨uid, rfl⟩
          · rw [if_neg h3]
            exact Or.inr ⟨uid, rfl⟩

/-- The share-accept handler leaves the invites table unchanged, or moves
one found invite whose status is neither revoked nor accepted to revoked or
to accepted. -/
theorem shareAccept_invites_cases (db : DB) (tokenParam userId userEmail : Option String)
    (now : Int) (freshListId freshTaskId : Nat) (failAt : Option CloneFail) :
    (shareAccept db tokenParam userId userEmail now freshListId freshTaskId failAt).2.invites =
      db.invites ∨
    ∃ inv, inv ∈ db.invites ∧ inv.status ≠ "revoked" ∧ inv.status ≠ "accepted" ∧
      ((shareAccept db tokenParam userId userEmail now freshListId freshTaskId failAt).2.invites =
          setInviteStatus db.invites inv.id "revoked" ∨
        (shareAccept db tokenParam userId userEmail now freshListId freshTaskId failAt).2.invites =
          setInviteStatus db.invites inv.id "accepted") := by
  unfold shareAccept
  dsimp only
  by_cases h1 : tokenParam.getD "" = ""
  · rw [if_pos h1]
    exact Or.inl rfl
  · rw [if_neg h1]
    cases hfind : db.invites.find? (fun inv => inv.token == tokenParam.getD "") with
    | none => exact Or.inl rfl
    | some invite =>
      dsimp only
      by_cases h2 : invite.status = "revoked"
      · rw [if_pos h2]
        exact Or.inl rfl
      · rw [if_neg h2]
        by_cases h3 : invite.status = "accepted"
        · rw [if_pos h3]
          exact Or.inl rfl
        · rw [if_neg h3]
          cases userId with
          | none => exact Or.inl rfl
          | some uid =>
            dsimp only
            cases hlist : db.lists.find? (fun l => l.id == invite.listId) with
            | none =>
              exact Or.inr ⟨invite, List.mem_of_find?_eq_some hfind, h2, h3, Or.inl rfl⟩
            | some sourceList =>
              dsimp only
              by_cases h4 : normEmail (userEmail.getD "") = "" ∨
                  normEmail (userEmail.getD "") ≠ normEmail invite.email
              · rw [if_pos h4]
                exact Or.inl rfl
              · rw [if_neg h4]
                by_cases h5 : inviteExpired invite.createdAt now = true
                · rw [if_pos h5]
                  exact Or.inr ⟨invite, List.mem_of_find?_eq_some hfind, h2, h3, Or.inl rfl⟩
                · rw [if_neg h5]
                  cases hclone : cloneTx db uid sourceList (tasksOfList db sourceList.id)
                      invite.id freshListId freshTaskId (baseSlugOf sourceList) failAt with
                  | error e => exact Or.inl rfl
                  | ok pair =>
                    obtain ⟨cl, db1⟩ := pair
                    exact Or.inr ⟨invite, List.mem_of_find?_eq_some hfind, h2, h3,
                      Or.inr (cloneTx_ok_invites hclone)⟩

/-- The three conclusions of the status invariant when the invites table is
untouched. -/
theorem status_conclusions_unchanged (invs : List ShareInvite)
    (hwf : ∀ inv ∈ invs, inviteStatusWf inv)
    (hnd : (invs.map (fun i => i.id)).Nodup) :
    (∀ inv' ∈ invs, inviteStatusWf inv') ∧
    (∀ inv ∈ invs, ∀ inv' ∈ invs, inv'.id = inv.id → statusStep inv.status inv'.status) ∧
    (∀ inv' ∈ invs, (∀ inv ∈ invs, inv.id ≠ inv'.id) → inv'.status = "pending") := by
  refine ⟨hwf, ?_, ?_⟩
  · intro inv hm inv' hm' hid
    rw [mem_eq_of_id_nodup hnd hm' hm hid]
    exact Or.inl rfl
  · intro inv' hm' hcontra
    exact absurd rfl (hcontra inv' hm')

/-- The three conclusions of the status invariant when one pending row with
a fresh id is appended. -/
theorem status_conclusions_append (invs : List ShareInvite) (newInv : ShareInvite)
    (hwf : ∀ inv ∈ invs, inviteStatusWf inv)
    (hnd : (invs.map (fun i => i.id)).Nodup)
    (hpend : newInv.status = "pending")
    (hfresh : ∀ inv ∈ invs, inv.id ≠ newInv.id) :
    (∀ inv' ∈ invs ++ [newInv], inviteStatusWf inv') ∧
    (∀ inv ∈ invs, ∀ inv' ∈ invs ++ [newInv], inv'.id = inv.id →
      statusStep inv.status inv'.status) ∧
    (∀ inv' ∈ invs ++ [newInv], (∀ inv ∈ invs, inv.id ≠ inv'.id) →
      inv'.status = "pending") := by
  refine ⟨?_, ?_, ?_⟩
  · intro inv' hm'
    rcases List.mem_append.mp hm' with h | h
    · exact hwf inv' h
    · rw [List.mem_singleton.mp h]
      exact Or.inl hpend
  · intro inv hm inv' hm' hid
    rcases List.mem_append.mp hm' with h | h
    · rw [mem_eq_of_id_nodup hnd h hm hid]
      exact Or.inl rfl
    · rw [List.mem_singleton.mp h] at hid
      exact absurd hid.symm (hfresh inv hm)
  · intro inv' hm' hcontra
    rcases List.mem_append.mp hm' with h | h
    · exact absurd rfl (hcontra inv' h)
    · rw [List.mem_singleton.mp h]
      exact hpend

/-- The three conclusions of the status invariant when one pending row moves
to a terminal status. -/
theorem status_conclusions_set (invs : List ShareInvite) (iid : Nat) (st : String)
    (hwf : ∀ inv ∈ invs, inviteStatusWf inv)
    (hnd : (invs.map (fun i => i.id)).Nodup)
    (inv0 : ShareInvite) (h0 : inv0 ∈ invs) (hid0 : inv0.id = iid)
    (hp0 : inv0.status = "pending")
    (hst : st = "accepted" ∨ st = "revoked") :
    (∀ inv' ∈ setInviteStatus invs iid st, inviteStatusWf inv') ∧
    (∀ inv ∈ invs, ∀ inv' ∈ setInviteStatus invs iid st, inv'.id = inv.id →
      statusStep inv.status inv'.status) ∧
    (∀ inv' ∈ setInviteStatus invs iid st,
      (∀ inv ∈ invs, inv.id ≠ inv'.id) → inv'.status = "pending") := by
  refine ⟨?_, ?_, ?_⟩
  · intro inv' hm'
    obtain ⟨a, ha, hida, hcase⟩ := setInviteStatus_cases invs iid st inv' hm'
    rcases hcase with rfl | ⟨haid, rfl⟩
    · exact hwf _ ha
    · rcases hst with rfl | rfl
      · exact Or.inr (Or.inl rfl)
      · exact Or.inr (Or.inr rfl)
  · intro inv hm inv' hm' hid
    obtain ⟨a, ha, hida, hcase⟩ := setInviteStatus_cases invs iid st inv' hm'
    have haeq : a = inv := mem_eq_of_id_nodup hnd ha hm (hida.symm.trans hid)
    rcases hcase with rfl | ⟨haid, rfl⟩
    · rw [haeq]
      exact Or.inl rfl
    · have ha0 : a = inv0 := mem_eq_of_id_nodup hnd ha h0 (haid.trans hid0.symm)
      refine Or.inr ⟨?_, ?_⟩
      · rw [← haeq, ha0]
        exact hp0
      · show st = "accepted" ∨ st = "revoked"
        exact hst
  · intro inv' hm' hcontra
    obtain ⟨a, ha, hida, hcase⟩ := setInviteStatus_cases invs iid st inv' hm'
    exact absurd hida.symm (hcontra a ha)

/-- Claim C5: over a store whose invite statuses are wellformed and whose
invite ids are keys, every operation of the plugin leaves every invite's
status unchanged or moves it from pending to accepted or from pending to
revoked — a status already accepted or revoked never changes — and every
invite row an operation creates starts at pending. -/
theorem invite_status_forward (db : DB) (op : Op)
    (hwf : ∀ inv ∈ db.invites, inviteStatusWf inv)
    (hnd : (db.invites.map (fun i => i.id)).Nodup)
    (hfresh : opFresh db op) :
    (∀ inv' ∈ (runOp db op).invites, inviteStatusWf inv') ∧
    (∀ inv ∈ db.invites, ∀ inv' ∈ (runOp db op).invites, inv'.id = inv.id →
      statusStep inv.status inv'.status) ∧
    (∀ inv' ∈ (runOp db op).invites, (∀ inv ∈ db.invites, inv.id ≠ inv'.id) →
      inv'.status = "pending") := by
  have hcases : (runOp db op).invites = db.invites ∨
      (∃ newInv : ShareInvite, (runOp db op).invites = db.invites ++ [newInv] ∧
        newInv.status = "pending" ∧
        (∀ inv ∈ db.invites, inv.id ≠ newInv.id)) ∨
      (∃ inv0 : ShareInvite, ∃ st : String, inv0 ∈ db.invites ∧ inv0.status = "pending" ∧
        (st = "accepted" ∨ st = "revoked") ∧
        (runOp db op).invites = setInviteStatus db.invites inv0.id st) := by
    cases op with
    | opCreateList u n s f => exact Or.inl (createList_invites db u n s f)
    | opUpdateList u i n s => exact Or.inl (updateList_invites db u i n s)
    | opDeleteList u i => exact Or.inl (deleteList_invites db u i)
    | opListsOrder u ids => exact Or.inl (listsOrder_invites db u ids)
    | opCreateTask u li t d dd rc st f => exact Or.inl (createTask_invites db u li t d dd rc st f)
    | opUpdateTask u i tu => exact Or.inl (updateTask_invites db u i tu)
    | opDeleteTask u i => exact Or.inl (deleteTask_invites db u i)
    | opTasksOrder u t ids => exact Or.inl (tasksOrder_invites db u t ids)
    | opDeleteCompleted u i => exact Or.inl (deleteCompletedTasks_invites db u i)
    | opShareList u li em mc mk fid tok n =>
      rcases shareList_invites_cases db u li em mc mk fid tok n with h | ⟨uid, h⟩
      · exact Or.inl h
      · refine Or.inr (Or.inl ⟨_, h, rfl, ?_⟩)
        exact fun inv hm => hfresh inv hm
    | opShareAccept tp u ue n fl ft fa =>
      rcases shareAccept_invites_cases db tp u ue n fl ft fa with
        h | ⟨inv, hm, hrev, hacc, hcase⟩
      · exact Or.inl h
      · have hp : inv.status = "pending" := by
          rcases hwf inv hm with h | h | h
          · exact h
          · exact absurd h hacc
          · exact absurd h hrev
        rcases hcase with h | h
        · exact Or.inr (Or.inr ⟨inv, "revoked", hm, hp, Or.inr rfl, h⟩)
        · exact Or.inr (Or.inr ⟨inv, "accepted", hm, hp, Or.inl rfl, h⟩)
  rcases hcases with h | ⟨newInv, h, hpend, hf⟩ | ⟨inv0, st, hm0, hp0, hst, h⟩
  · rw [h]
    exact status_conclusions_unchanged db.invites hwf hnd
  · rw [h]
    exact status_conclusions_append db.invites newInv hwf hnd hpend hf
  · rw [h]
    exact status_conclusions_set db.invites inv0.id st hwf hnd inv0 hm0 rfl hp0 hst

/-- Witness for C5: after a successful redemption on the concrete scenario
the invite row is wellformed and its evolution from pending to accepted is a
legal forward step. -/
theorem invite_status_forward_witness :
    inviteStatusWf { exInvite with status := "accepted" } ∧
    statusStep exInvite.status "accepted" :=
  ⟨(invite_status_forward exDb (Op.opShareAccept (some "tok") (some "u1")
      (some "alice@example.com") 1000 50 60 none) (by decide) (by decide) trivial).1
      { exInvite with status := "accepted" } (by decide),
   (invite_status_forward exDb (Op.opShareAccept (some "tok") (some "u1")
      (some "alice@example.com") 1000 50 60 none) (by decide) (by decide) trivial).2.1
      exInvite (by decide) { exInvite with status := "accepted" } (by decide) (by decide)⟩

end SovereignTasks
